import Mathlib

/-!
Shallow embedding of the `ais-map2` cleanup pipeline
(`cleanup_vessels.py` and `territory.py`).

Modelling conventions:
* Geographic coordinates (Python floats, degrees) are modelled as exact
  rationals `ℚ`; geometric predicates are computed in exact arithmetic.
* The geometry library (shapely) is external; its documented semantics are
  embedded directly: `Polygon.contains(point)` is true exactly on the
  *interior* of the polygon (a polygon does not contain its own boundary),
  and `LineString.distance(point)` is the Euclidean distance from the point
  to the nearest point of the line.  Distance comparisons against the
  threshold `0.2` are expressed on squared distances (`< (1/5)^2`), which
  is equivalent for nonnegative quantities and keeps everything rational.
* Polygons are modelled as hole-free simple rings (the repository's data
  carries no holes that any claim depends on); a MultiPolygon is a list of
  rings, contained iff some ring contains the point.
* Timestamps are modelled as integers (seconds); `now - timedelta(hours=h)`
  becomes `now - h * 3600`.
-/

namespace AisMap2

/-- Planar point `(x, y)` = `(longitude, latitude)` in degrees. -/
abbrev Pt : Type := ℚ × ℚ

/-- Membership of a point in a closed segment `[a, b]`:
collinearity (zero cross product) plus bounding-box membership. -/
def onSegment (p a b : Pt) : Bool :=
  decide ((b.1 - a.1) * (p.2 - a.2) - (b.2 - a.2) * (p.1 - a.1) = 0) &&
  decide (min a.1 b.1 ≤ p.1) && decide (p.1 ≤ max a.1 b.1) &&
  decide (min a.2 b.2 ≤ p.2) && decide (p.2 ≤ max a.2 b.2)

/-- Edges of a polygon ring given by its vertex list (last vertex closes
back to the first). -/
def ringEdges (ring : List Pt) : List (Pt × Pt) :=
  ring.zip (ring.rotateLeft 1)

/-- The point lies on the boundary of the ring. -/
def onBoundary (p : Pt) (ring : List Pt) : Bool :=
  (ringEdges ring).any fun e => onSegment p e.1 e.2

/-- Crossing test of the horizontal ray from `p` towards `+x` against the
edge `a‑b` (standard even–odd ray casting, half-open in `y` so a shared
vertex is counted once). -/
def rayCrosses (p a b : Pt) : Bool :=
  (decide (p.2 < a.2) != decide (p.2 < b.2)) &&
  decide (p.1 < a.1 + (b.1 - a.1) * (p.2 - a.2) / (b.2 - a.2))

/-- Even–odd parity of ray crossings for a ring. -/
def rayOdd (p : Pt) (ring : List Pt) : Bool :=
  ((ringEdges ring).countP fun e => rayCrosses p e.1 e.2) % 2 == 1

/-- Embedding of shapely `Polygon.contains(point)` for a simple hole-free
ring: the point is in the interior (odd crossing parity and not on the
boundary).  Per shapely semantics a polygon does NOT contain points of its
own boundary. -/
def polyContains (p : Pt) (ring : List Pt) : Bool :=
  rayOdd p ring && !onBoundary p ring

/-- Containment in an Area geometry (Polygon / MultiPolygon): inside some
ring's interior. -/
def areaContains (p : Pt) (rings : List (List Pt)) : Bool :=
  rings.any fun ring => polyContains p ring

/-- Squared Euclidean distance from `p` to the closed segment `[a, b]`
(the nearest point is the projection clamped to the segment).  This is the
exact-arithmetic counterpart of shapely `distance` (squared). -/
def segDistSq (p a b : Pt) : ℚ :=
  let dx := b.1 - a.1
  let dy := b.2 - a.2
  let len2 := dx * dx + dy * dy
  if len2 = 0 then (p.1 - a.1) * (p.1 - a.1) + (p.2 - a.2) * (p.2 - a.2)
  else
    let t := max 0 (min 1 (((p.1 - a.1) * dx + (p.2 - a.2) * dy) / len2))
    (p.1 - (a.1 + t * dx)) * (p.1 - (a.1 + t * dx)) +
      (p.2 - (a.2 + t * dy)) * (p.2 - (a.2 + t * dy))

/-- Squared proximity threshold: `PROXIMITY_THRESHOLD = 0.2` degrees, so
`distance < 0.2` iff `distanceSq < 1/25`. -/
def proximityThresholdSq : ℚ := 1 / 25

/-- Embedding of `geometry.distance(point) < PROXIMITY_THRESHOLD` for a
Line geometry given by its segments: some segment is strictly closer than
the threshold. -/
def lineWithin (p : Pt) (segs : List (Pt × Pt)) : Bool :=
  segs.any fun s => decide (segDistSq p s.1 s.2 < proximityThresholdSq)

/-- Geometry of one loaded boundary, after the loader's dispatch on the
GeoJSON `type` tag: `area` for Polygon/MultiPolygon (list of rings),
`line` for LineString/MultiLineString (list of segments). -/
inductive BGeom : Type where
  | area (rings : List (List Pt))
  | line (segs : List (Pt × Pt))
deriving DecidableEq

/-- One entry of the list built by `load_territorial_waters`:
`{'geometry': ..., 'country': ..., 'type': ...}` (the `type` tag is
absorbed into the `BGeom` constructor). -/
structure Boundary : Type where
  geom : BGeom
  country : String
deriving DecidableEq

/-- Does this boundary match the point, exactly as the branches of
`get_vessel_country` decide it? -/
def boundaryMatches (p : Pt) (b : Boundary) : Bool :=
  match b.geom with
  | .area rings => areaContains p rings
  | .line segs => lineWithin p segs

/-- Embedding of `get_vessel_country(lon, lat, boundaries)`: walk the
boundaries in store order; an Area matches by (interior) containment, a
Line by distance strictly below the proximity threshold; first match wins;
`None` if nothing matches. -/
def get_vessel_country (lon lat : ℚ) : List Boundary → Option String
  | [] => none
  | b :: rest =>
    if boundaryMatches (lon, lat) b then some b.country
    else get_vessel_country lon lat rest

/-! Loading of boundary features. -/

/-- Raw GeoJSON geometry as far as the loaders inspect it: the `type` tag
plus coordinates.  `other` stands for any unsupported `type`
(Point, GeometryCollection, ...). -/
inductive RawGeom : Type where
  | polygon (ring : List Pt)
  | multiPolygon (rings : List (List Pt))
  | lineString (pts : List Pt)
  | multiLineString (lines : List (List Pt))
  | other
deriving DecidableEq

/-- Consecutive-point segments of a LineString vertex list. -/
def segmentsOf (pts : List Pt) : List (Pt × Pt) :=
  pts.zip pts.tail

/-- Dispatch of `load_territorial_waters` on the geometry `type` tag:
Polygon/MultiPolygon become Area geometries, LineString/MultiLineString
become Line geometries, anything else is skipped (`none`). -/
def toBGeom : RawGeom → Option BGeom
  | .polygon ring => some (.area [ring])
  | .multiPolygon rings => some (.area rings)
  | .lineString pts => some (.line (segmentsOf pts))
  | .multiLineString lines => some (.line (lines.map segmentsOf).flatten)
  | .other => none

/-- Python string truthiness on an optional string property value:
`None` and the empty string are falsy. -/
def truthy : Option String → Option String
  | none => none
  | some s => if s = "" then none else some s

/-- Raw feature as seen by `load_territorial_waters`: a `properties`
mapping (key–value pairs, first binding wins on lookup) and a geometry. -/
structure RawFeature : Type where
  properties : List (String × String)
  geometry : RawGeom
deriving DecidableEq

/-- Property lookup, `feature['properties'].get(key)`. -/
def propGet (props : List (String × String)) (key : String) : Option String :=
  props.lookup key

/-- Label resolution of `load_territorial_waters`:
`properties.get('TERRITORY1') or properties.get('Country') or
properties.get('NAME') or 'Unknown'` — Python `or` keeps the first truthy
value, so empty strings and missing keys fall through. -/
def cleanupLabel (props : List (String × String)) : String :=
  match truthy (propGet props "TERRITORY1") with
  | some s => s
  | none =>
    match truthy (propGet props "Country") with
    | some s => s
    | none =>
      match truthy (propGet props "NAME") with
      | some s => s
      | none => "Unknown"

/-- Embedding of `load_territorial_waters` on already-parsed features:
keep features whose geometry kind is one of the four supported ones,
resolving the country label per `cleanupLabel`. -/
def load_territorial_waters (features : List RawFeature) : List Boundary :=
  features.filterMap fun f =>
    match toBGeom f.geometry with
    | some g => some ⟨g, cleanupLabel f.properties⟩
    | none => none

/-! Vessel positions, aggregation and the retention decision. -/

/-- One row of `vessel_positions` as fetched (and as stored):
`mmsi, longitude, latitude, timestamp`.  Timestamps are integer seconds. -/
structure PositionRecord : Type where
  mmsi : Nat
  longitude : ℚ
  latitude : ℚ
  timestamp : Int
deriving DecidableEq

/-- Lower bound of the lookback window:
`datetime.now(utc) - timedelta(hours=hours)`. -/
def windowStart (now : Int) (hours : Int) : Int :=
  now - hours * 3600

/-- One step of the grouping loop: append the record to its vessel's group
(Python dict keyed by `mmsi`, insertion-ordered). -/
def addPos (acc : List (Nat × List PositionRecord)) (pos : PositionRecord) :
    List (Nat × List PositionRecord) :=
  if acc.any fun g => g.1 == pos.mmsi then
    acc.map fun g => if g.1 == pos.mmsi then (g.1, g.2 ++ [pos]) else g
  else acc ++ [(pos.mmsi, [pos])]

/-- Embedding of the grouping loop of `analyze_vessel_movements`:
`vessels[mmsi].append(pos)` over the fetched records in order. -/
def groupByMmsi (positions : List PositionRecord) :
    List (Nat × List PositionRecord) :=
  positions.foldl addPos []

/-- The `countries_visited` set of one vessel: classify every record and
keep the truthy results (`if country:`). -/
def countries_visited (boundaries : List Boundary)
    (positions : List PositionRecord) : Finset String :=
  (positions.filterMap fun pos =>
    truthy (get_vessel_country pos.longitude pos.latitude boundaries)).toFinset

/-- Per-vessel retention decision of `analyze_vessel_movements`
(`true` = keep): fewer than 2 records keeps the vessel; otherwise keep
iff at least 2 distinct countries were visited. -/
def keepVessel (boundaries : List Boundary)
    (positions : List PositionRecord) : Bool :=
  if positions.length < 2 then true
  else decide (2 ≤ (countries_visited boundaries positions).card)

/-- Embedding of the analysis loop of `analyze_vessel_movements`: group
the fetched records by vessel, then split the vessels into
`(vessels_to_keep, vessels_to_delete)`. -/
def analyze_vessel_movements (boundaries : List Boundary)
    (positions : List PositionRecord) : List Nat × List Nat :=
  let vessels := groupByMmsi positions
  ((vessels.filter fun g => keepVessel boundaries g.2).map Prod.fst,
   (vessels.filter fun g => !keepVessel boundaries g.2).map Prod.fst)

/-! Batched deletion. -/

/-- Slices `mmsi_list[i:i+batch_size]` produced by
`range(0, len(mmsi_list), batch_size)`. -/
def chunkList : Nat → List α → List (List α)
  | _, [] => []
  | 0, _ :: _ => []
  | n + 1, a :: l =>
    (a :: l).take (n + 1) :: chunkList (n + 1) ((a :: l).drop (n + 1))
termination_by _ l => l.length
decreasing_by
  simp only [List.length_drop, List.length_cons]
  omega

/-- Semantics of one call of the store's delete interface,
`delete().in_('mmsi', batch).gte('timestamp', threshold)`.  Modelled from
the spec (§6 Delete interface — the store itself is an external
collaborator): it removes exactly the records whose `mmsi` is in the batch
and whose timestamp is at or after the lower bound. -/
def applyDeleteCall (store : List PositionRecord) (batch : List Nat)
    (threshold : Int) : List PositionRecord :=
  store.filter fun r => !(decide (r.mmsi ∈ batch) && decide (threshold ≤ r.timestamp))

/-- Embedding of `delete_vessels(supabase, mmsi_set, hours)` acting on a
store snapshot: empty set returns immediately; otherwise the identifier
list is cut into batches of 100 and one delete call is issued per batch,
each bounded below by the window-start timestamp.  Returns the resulting
store and the list of issued batch calls. -/
def delete_vessels (store : List PositionRecord) (mmsiList : List Nat)
    (threshold : Int) : List PositionRecord × List (List Nat) :=
  if mmsiList.isEmpty then (store, [])
  else
    let batches := chunkList 100 mmsiList
    (batches.foldl (fun s b => applyDeleteCall s b threshold) store, batches)

/-! The `territory.py` module. -/

/-- Label resolution of `territory.py`'s `_load_geojson`:
`props.get('territory1') or props.get('sovereign1') or
props.get('geoname') or props.get('name') or None` — note the fallback is
`None`, not `'Unknown'`. -/
def terrLabel (props : List (String × String)) : Option String :=
  match truthy (propGet props "territory1") with
  | some s => some s
  | none =>
    match truthy (propGet props "sovereign1") with
    | some s => some s
    | none =>
      match truthy (propGet props "geoname") with
      | some s => some s
      | none => truthy (propGet props "name")

/-- Raw feature as seen by `_load_geojson`: the geometry may be absent
(`feat.get('geometry')`), in which case the feature is skipped. -/
structure TerrRawFeature : Type where
  properties : List (String × String)
  geometry : Option RawGeom
deriving DecidableEq

/-- Embedding of `_load_geojson` on already-parsed features: skip features
without geometry, keep `(country, geometry)` pairs for all the rest (no
geometry-kind filter in this loader). -/
def terrLoadFeatures (features : List TerrRawFeature) :
    List (Option String × RawGeom) :=
  features.filterMap fun f =>
    match f.geometry with
    | none => none
    | some g => some (terrLabel f.properties, g)

/-- Embedding of shapely `contains` as used on the raw geometries kept by
`territory.py`: interior containment for Polygon/MultiPolygon.  Line and
unsupported geometries have empty 2-D interior; the measure-zero
point-exactly-on-a-line case is modelled as no containment. -/
def terrContains (p : Pt) : RawGeom → Bool
  | .polygon ring => polyContains p ring
  | .multiPolygon rings => rings.any fun ring => polyContains p ring
  | _ => false

/-- Module state of `territory.py` at query time: whether shapely imported
and the value of `_territorial_polys` after the (lazy) load attempt. -/
structure TerritoryState : Type where
  shapelyAvailable : Bool
  territorial_polys : List (Option String × RawGeom)
deriving DecidableEq

/-- The lookup loop of `find_territorial_country`: first feature whose
geometry contains the point gives its (possibly null) country. -/
def firstContaining (p : Pt) : List (Option String × RawGeom) → Option String
  | [] => none
  | f :: rest => if terrContains p f.2 then f.1 else firstContaining p rest

/-- Embedding of `find_territorial_country(lon, lat)`: `None` when shapely
is unavailable; `None` when the feature list is empty even after the lazy
load; otherwise the first containing feature's country. -/
def find_territorial_country (st : TerritoryState) (lon lat : ℚ) :
    Option String :=
  if !st.shapelyAvailable then none
  else firstContaining (lon, lat) st.territorial_polys

/-! The main cleanup run. -/

/-- Outcome of opening/parsing the boundary file inside
`load_territorial_waters`. -/
inductive LoadOutcome : Type where
  | fileMissing
  | parseFailure
  | ok (features : List RawFeature)
deriving DecidableEq

/-- Outcome of the position fetch inside `analyze_vessel_movements`. -/
inductive FetchOutcome : Type where
  | err
  | ok (positions : List PositionRecord)
deriving DecidableEq

/-- Observable outcome of one `main()` run against a store snapshot. -/
structure RunResult : Type where
  /-- a Keep/Delete partition was computed -/
  verdictComputed : Bool
  /-- number of `get_vessel_country` invocations made by the analysis -/
  classifyCalls : Nat
  /-- batches handed to the store's delete interface, in order -/
  deleteCalls : List (List Nat)
  /-- store contents when the run ends -/
  finalStore : List PositionRecord
deriving DecidableEq

/-- Number of classifier invocations of the analysis loop: vessels with
fewer than 2 records skip classification (`continue`), every other vessel
classifies each of its records. -/
def classifyCallCount (positions : List PositionRecord) : Nat :=
  ((groupByMmsi positions).map fun g =>
    if g.2.length < 2 then 0 else g.2.length).sum

/-- Embedding of `main()` over explicit environment outcomes.
`fileMissing` makes `load_territorial_waters` return `[]` and main exits
at `if not boundaries: return`; `parseFailure` raises out of `json.load`
uncaught, ending the process; a fetch error makes
`analyze_vessel_movements` return a bare `set()` whose tuple unpacking in
main raises, also ending the process before any deletion.  In all three
cases nothing is classified, no verdict is computed, no delete call is
issued and the store is untouched. -/
def mainRun (load : LoadOutcome) (fetch : FetchOutcome)
    (store : List PositionRecord) (now : Int) : RunResult :=
  match load with
  | .fileMissing => ⟨false, 0, [], store⟩
  | .parseFailure => ⟨false, 0, [], store⟩
  | .ok rawFeatures =>
    let boundaries := load_territorial_waters rawFeatures
    if boundaries.isEmpty then ⟨false, 0, [], store⟩
    else
      match fetch with
      | .err => ⟨false, 0, [], store⟩
      | .ok positions =>
        let analysis := analyze_vessel_movements boundaries positions
        if analysis.2.isEmpty then
          ⟨true, classifyCallCount positions, [], store⟩
        else
          let deletion := delete_vessels store analysis.2 (windowStart now 24)
          ⟨true, classifyCallCount positions, deletion.2, deletion.1⟩

/-! Concrete example data used by witnesses and counterexamples. -/

/-- Unit square ring around the origin. -/
def sqRing : List Pt := [(-1, -1), (1, -1), (1, 1), (-1, 1)]

/-- Square ring around `(10, 10)`. -/
def seRing : List Pt := [(9, 9), (11, 9), (11, 11), (9, 11)]

/-- Area boundary labelled `FI` (square around the origin). -/
def areaFI : Boundary := ⟨.area [sqRing], "FI"⟩

/-- Line boundary labelled `SE` (segment from the origin to `(1, 0)`). -/
def lineSE : Boundary := ⟨.line [((0, 0), (1, 0))], "SE"⟩

/-- Store with a Line boundary ordered before an Area boundary. -/
def mixedBnds : List Boundary := [lineSE, areaFI]

/-- Raw polygon feature labelled `FI` via the `TERRITORY1` property. -/
def fiFeature : RawFeature := ⟨[("TERRITORY1", "FI")], .polygon sqRing⟩

/-- Raw polygon feature labelled `SE` via the `TERRITORY1` property. -/
def seFeature : RawFeature := ⟨[("TERRITORY1", "SE")], .polygon seRing⟩

/-- Boundaries produced by the loader on the two example features. -/
def exampleLoadedBnds : List Boundary :=
  load_territorial_waters [fiFeature, seFeature]

/-- Position of vessel 123 inside the `FI` square. -/
def posFI : PositionRecord := ⟨123, 0, 0, 1000⟩

/-- Position of vessel 123 inside the `SE` square. -/
def posSE : PositionRecord := ⟨123, 10, 10, 2000⟩

/-- A record older than any positive window start. -/
def oldRec : PositionRecord := ⟨77, 0, 0, 0⟩

/-- Territory-module raw feature carrying no name property at all. -/
def unnamedTerrFeature : TerrRawFeature := ⟨[], some (.polygon sqRing)⟩

/-- Candidate property keys of the cleanup loader, in priority order. -/
def cleanupKeys : List String := ["TERRITORY1", "Country", "NAME"]

/-- Candidate property keys of the territory-module loader, in priority
order. -/
def terrKeys : List String := ["territory1", "sovereign1", "geoname", "name"]

/-- Modelled from the spec's words, for comparison with the two loaders:
the jurisdiction label is the first non-empty value among the prioritized
candidate property keys (`none` when no candidate resolves). -/
def specFirstNonEmpty (keys : List String)
    (props : List (String × String)) : Option String :=
  (keys.filterMap fun k => truthy (propGet props k)).head?

/-! Supporting lemmas about the classifier. -/

theorem get_vessel_country_eq_some {lon lat : ℚ} {bnds : List Boundary}
    {s : String} (h : get_vessel_country lon lat bnds = some s) :
    ∃ b ∈ bnds, s = b.country := by
  induction bnds with
  | nil => simp [get_vessel_country] at h
  | cons b rest ih =>
    rw [get_vessel_country] at h
    split at h
    · exact ⟨b, List.mem_cons_self b rest, (Option.some.injEq ..▸ h).symm⟩
    · obtain ⟨c, hc, hs⟩ := ih h
      exact ⟨c, List.mem_cons_of_mem b hc, hs⟩

theorem gvc_cons_of_match {lon lat : ℚ} {b : Boundary} {rest : List Boundary}
    (h : boundaryMatches (lon, lat) b = true) :
    get_vessel_country lon lat (b :: rest) = some b.country := by
  rw [get_vessel_country, if_pos h]

theorem gvc_cons_of_no_match {lon lat : ℚ} {b : Boundary} {rest : List Boundary}
    (h : boundaryMatches (lon, lat) b = false) :
    get_vessel_country lon lat (b :: rest) = get_vessel_country lon lat rest := by
  rw [get_vessel_country, if_neg (by simp [h])]

theorem gvc_append_of_no_match {lon lat : ℚ} {rest : List Boundary}
    (pre : List Boundary)
    (h : ∀ c ∈ pre, boundaryMatches (lon, lat) c = false) :
    get_vessel_country lon lat (pre ++ rest) = get_vessel_country lon lat rest := by
  induction pre with
  | nil => rfl
  | cons c cs ih =>
    rw [List.cons_append, gvc_cons_of_no_match (h c (List.mem_cons_self c cs))]
    exact ih fun d hd => h d (List.mem_cons_of_mem c hd)

theorem lineWithin_eq_false {p : Pt} {segs : List (Pt × Pt)}
    (h : ∀ s ∈ segs, proximityThresholdSq ≤ segDistSq p s.1 s.2) :
    lineWithin p segs = false := by
  simp only [lineWithin, List.any_eq_false, decide_eq_true_iff]
  exact fun s hs => not_lt.mpr (h s hs)

theorem polyContains_eq_false_of_onBoundary {p : Pt} {ring : List Pt}
    (h : onBoundary p ring = true) : polyContains p ring = false := by
  simp [polyContains, h]

theorem areaContains_eq_false_of_onBoundary {p : Pt} {rings : List (List Pt)}
    (h : ∀ ring ∈ rings, onBoundary p ring = true) :
    areaContains p rings = false := by
  simp only [areaContains, List.any_eq_false, Bool.not_eq_true]
  exact fun ring hr => polyContains_eq_false_of_onBoundary (h ring hr)

/-! Supporting lemmas about the grouping of positions by vessel. -/

theorem addPos_map_fst (acc : List (Nat × List PositionRecord))
    (pos : PositionRecord) :
    (addPos acc pos).map Prod.fst =
      if acc.any fun g => g.1 == pos.mmsi then acc.map Prod.fst
      else acc.map Prod.fst ++ [pos.mmsi] := by
  unfold addPos
  split
  case isTrue h =>
    rw [List.map_map]
    apply List.map_congr_left
    intro g _
    by_cases hg : g.1 = pos.mmsi <;> simp [hg]
  case isFalse h => simp

theorem addPos_keys_nodup {acc : List (Nat × List PositionRecord)}
    (pos : PositionRecord) (h : (acc.map Prod.fst).Nodup) :
    ((addPos acc pos).map Prod.fst).Nodup := by
  rw [addPos_map_fst]
  split
  case isTrue _ => exact h
  case isFalse hany =>
    rw [List.nodup_append]
    refine ⟨h, List.nodup_singleton _, ?_⟩
    intro x hx hx2
    rw [List.mem_singleton] at hx2
    subst hx2
    obtain ⟨g, hg, hfst⟩ := List.mem_map.mp hx
    exact hany (List.any_eq_true.mpr ⟨g, hg, by simp [hfst]⟩)

theorem groupByMmsi_keys_nodup (positions : List PositionRecord) :
    ((groupByMmsi positions).map Prod.fst).Nodup := by
  suffices h : ∀ acc : List (Nat × List PositionRecord), (acc.map Prod.fst).Nodup →
      ((positions.foldl addPos acc).map Prod.fst).Nodup from h [] (by simp)
  induction positions with
  | nil => exact fun acc h => h
  | cons pos rest ih =>
    intro acc h
    exact ih _ (addPos_keys_nodup pos h)

theorem keys_nodup_assoc {l : List (Nat × List PositionRecord)}
    (h : (l.map Prod.fst).Nodup) {m : Nat} {g1 g2 : List PositionRecord}
    (h1 : (m, g1) ∈ l) (h2 : (m, g2) ∈ l) : g1 = g2 := by
  induction l with
  | nil => cases h1
  | cons x xs ih =>
    rw [List.map_cons, List.nodup_cons] at h
    obtain ⟨hx, hxs⟩ := h
    rw [List.mem_cons] at h1 h2
    rcases h1 with h1 | h1 <;> rcases h2 with h2 | h2
    · exact congrArg Prod.snd (h1.trans h2.symm)
    · subst h1
      exact absurd (List.mem_map_of_mem Prod.fst h2) hx
    · subst h2
      exact absurd (List.mem_map_of_mem Prod.fst h1) hx
    · exact ih hxs h1 h2

theorem mem_map_fst_filter (P : Nat × List PositionRecord → Bool)
    {l : List (Nat × List PositionRecord)} (h : (l.map Prod.fst).Nodup)
    {m : Nat} {g : List PositionRecord} (hmem : (m, g) ∈ l) :
    m ∈ (l.filter P).map Prod.fst ↔ P (m, g) = true := by
  constructor
  · intro hm
    obtain ⟨x, hx, hfst⟩ := List.mem_map.mp hm
    obtain ⟨hxl, hPx⟩ := List.mem_filter.mp hx
    obtain ⟨x1, x2⟩ := x
    cases hfst
    rwa [keys_nodup_assoc h hxl hmem] at hPx
  · intro hP
    exact List.mem_map_of_mem Prod.fst (List.mem_filter.mpr ⟨hmem, hP⟩)

/-! Supporting lemmas about batching and deletion. -/

theorem chunkList_flatten {α : Type} :
    ∀ (n : Nat) (l : List α), n ≠ 0 → (chunkList n l).flatten = l
  | _, [], _ => by simp [chunkList]
  | 0, _ :: _, h => absurd rfl h
  | n + 1, a :: l, _ => by
    rw [chunkList, List.flatten_cons,
      chunkList_flatten (n + 1) ((a :: l).drop (n + 1)) (by omega)]
    exact List.take_append_drop (n + 1) (a :: l)
termination_by n l => l.length
decreasing_by simp only [List.length_drop, List.length_cons]; omega

theorem chunkList_mem_length {α : Type} :
    ∀ (n : Nat) (l : List α) (b : List α), b ∈ chunkList n l → b.length ≤ n
  | _, [], b, h => by simp [chunkList] at h
  | 0, _ :: _, b, h => by simp [chunkList] at h
  | n + 1, a :: l, b, h => by
    rw [chunkList] at h
    rcases List.mem_cons.mp h with h | h
    · subst h
      rw [List.length_take]
      exact min_le_left _ _
    · exact chunkList_mem_length (n + 1) ((a :: l).drop (n + 1)) b h
termination_by n l => l.length
decreasing_by simp only [List.length_drop, List.length_cons]; omega

theorem chunkList_length {α : Type} :
    ∀ (n : Nat) (l : List α), n ≠ 0 →
      (chunkList n l).length = (l.length + (n - 1)) / n
  | n, [], h => by
    rw [chunkList]
    simp only [List.length_nil, Nat.zero_add]
    exact (Nat.div_eq_of_lt (by omega)).symm
  | 0, _ :: _, h => absurd rfl h
  | n + 1, a :: l, _ => by
    rw [chunkList, List.length_cons,
      chunkList_length (n + 1) ((a :: l).drop (n + 1)) (by omega)]
    simp only [List.length_drop, List.length_cons, Nat.add_sub_cancel]
    rw [show l.length + 1 + n = l.length + (n + 1) by omega,
      Nat.add_div_right _ (by omega)]
    by_cases hm : n < l.length
    · rw [show l.length + 1 - (n + 1) + n = l.length by omega]
    · rw [show l.length + 1 - (n + 1) + n = n by omega,
        Nat.div_eq_of_lt (by omega), Nat.div_eq_of_lt (by omega)]
termination_by n l => l.length
decreasing_by simp only [List.length_drop, List.length_cons]; omega

theorem applyDeleteCall_mem {store : List PositionRecord} {batch : List Nat}
    {threshold : Int} {r : PositionRecord} (hr : r ∈ store)
    (h : ¬(r.mmsi ∈ batch ∧ threshold ≤ r.timestamp)) :
    r ∈ applyDeleteCall store batch threshold := by
  refine List.mem_filter.mpr ⟨hr, ?_⟩
  simp only [Bool.not_eq_eq_eq_not, Bool.not_true, Bool.and_eq_false_iff,
    decide_eq_false_iff_not]
  by_cases hm : r.mmsi ∈ batch
  · exact Or.inr fun ht => h ⟨hm, ht⟩
  · exact Or.inl hm

theorem applyDeleteCall_subset {store : List PositionRecord} {batch : List Nat}
    {threshold : Int} {r : PositionRecord}
    (h : r ∈ applyDeleteCall store batch threshold) : r ∈ store :=
  (List.mem_filter.mp h).1

theorem applyDeleteCall_removed {store : List PositionRecord} {batch : List Nat}
    {threshold : Int} {r : PositionRecord} (hr : r ∈ store)
    (h : r ∉ applyDeleteCall store batch threshold) :
    r.mmsi ∈ batch ∧ threshold ≤ r.timestamp := by
  by_contra hc
  exact h (applyDeleteCall_mem hr hc)

theorem foldl_delete_mem {threshold : Int} :
    ∀ (batches : List (List Nat)) (s : List PositionRecord) (r : PositionRecord),
      r ∈ s → r.timestamp < threshold →
      r ∈ batches.foldl (fun s b => applyDeleteCall s b threshold) s
  | [], s, r, hr, _ => hr
  | b :: bs, s, r, hr, ht =>
    foldl_delete_mem bs _ r
      (applyDeleteCall_mem hr fun hc => absurd ht (not_lt.mpr hc.2)) ht

theorem foldl_delete_removed {threshold : Int} :
    ∀ (batches : List (List Nat)) (s : List PositionRecord) (r : PositionRecord),
      r ∈ s → r ∉ batches.foldl (fun s b => applyDeleteCall s b threshold) s →
      threshold ≤ r.timestamp ∧ ∃ b ∈ batches, r.mmsi ∈ b
  | [], s, r, hr, hnot => absurd hr hnot
  | b :: bs, s, r, hr, hnot => by
    by_cases hstep : r ∈ applyDeleteCall s b threshold
    · obtain ⟨ht, c, hc, hm⟩ := foldl_delete_removed bs _ r hstep hnot
      exact ⟨ht, c, List.mem_cons_of_mem b hc, hm⟩
    · obtain ⟨hm, ht⟩ := applyDeleteCall_removed hr hstep
      exact ⟨ht, b, List.mem_cons_self b bs, hm⟩

/-! Supporting lemmas about the retention decision. -/

theorem countries_visited_eq {bnds : List Boundary}
    (hb : ∀ b ∈ bnds, b.country ≠ "") (group : List PositionRecord) :
    countries_visited bnds group =
      (group.filterMap fun pos =>
        get_vessel_country pos.longitude pos.latitude bnds).toFinset := by
  unfold countries_visited
  congr 1
  apply List.filterMap_congr
  intro pos _
  cases hg : get_vessel_country pos.longitude pos.latitude bnds with
  | none => rfl
  | some s =>
    obtain ⟨b, hbmem, rfl⟩ := get_vessel_country_eq_some hg
    simp [truthy, hb b hbmem]

theorem keepVessel_iff {bnds : List Boundary}
    (hb : ∀ b ∈ bnds, b.country ≠ "") (group : List PositionRecord) :
    keepVessel bnds group = true ↔
      (group.length < 2 ∨ 2 ≤ ((group.filterMap fun pos =>
        get_vessel_country pos.longitude pos.latitude bnds).toFinset.card)) := by
  unfold keepVessel
  rw [countries_visited_eq hb group]
  split
  case isTrue h => simp [h]
  case isFalse h => simp [h, decide_eq_true_iff]

/-! Claim theorems. -/

/-- C1: Variant A retention rule.  For every vessel present in the windowed
position set (a key–group pair of the grouping), the decision engine puts
it in the keep set iff it has fewer than 2 records or its records classify
to at least 2 distinct non-None jurisdiction labels, and in the delete set
iff neither holds.  The hypothesis that boundary labels are non-empty holds
for every boundary produced by `load_territorial_waters` (whose fallback
label is `"Unknown"`), and makes Python's truthiness filter `if country:`
coincide with discarding `None`. -/
theorem variantA_retention_rule (bnds : List Boundary)
    (hb : ∀ b ∈ bnds, b.country ≠ "")
    (positions : List PositionRecord) (mmsi : Nat)
    (group : List PositionRecord)
    (hmem : (mmsi, group) ∈ groupByMmsi positions) :
    (mmsi ∈ (analyze_vessel_movements bnds positions).1 ↔
      (group.length < 2 ∨ 2 ≤ ((group.filterMap fun pos =>
        get_vessel_country pos.longitude pos.latitude bnds).toFinset.card)))
    ∧ (mmsi ∈ (analyze_vessel_movements bnds positions).2 ↔
      ¬(group.length < 2 ∨ 2 ≤ ((group.filterMap fun pos =>
        get_vessel_country pos.longitude pos.latitude bnds).toFinset.card))) := by
  have hkn := groupByMmsi_keys_nodup positions
  constructor
  · rw [show (analyze_vessel_movements bnds positions).1 =
        ((groupByMmsi positions).filter fun g =>
          keepVessel bnds g.2).map Prod.fst from rfl]
    rw [mem_map_fst_filter (fun g => keepVessel bnds g.2) hkn hmem]
    exact keepVessel_iff hb group
  · rw [show (analyze_vessel_movements bnds positions).2 =
        ((groupByMmsi positions).filter fun g =>
          !keepVessel bnds g.2).map Prod.fst from rfl]
    rw [mem_map_fst_filter (fun g => !keepVessel bnds g.2) hkn hmem]
    rw [← keepVessel_iff hb group]
    simp

/-- C1 witness: with the two loader-produced area boundaries, vessel 123
with one record in the FI square and one in the SE square is kept. -/
theorem variantA_retention_rule_witness :
    (∀ b ∈ exampleLoadedBnds, b.country ≠ "")
    ∧ 123 ∈ (analyze_vessel_movements exampleLoadedBnds [posFI, posSE]).1 := by
  refine ⟨by decide, ?_⟩
  have h := variantA_retention_rule exampleLoadedBnds (by decide)
    [posFI, posSE] 123 [posFI, posSE] (by decide)
  refine h.1.mpr (Or.inr ?_)
  have hload : exampleLoadedBnds =
      [⟨.area [sqRing], "FI"⟩, ⟨.area [seRing], "SE"⟩] := rfl
  have h1 : get_vessel_country posFI.longitude posFI.latitude
      exampleLoadedBnds = some "FI" := by
    rw [hload]
    norm_num [posFI, get_vessel_country,
      boundaryMatches, areaContains, polyContains, rayOdd, onBoundary,
      ringEdges, sqRing, seRing, List.rotateLeft, List.countP, List.countP.go,
      rayCrosses, onSegment]
  have h2 : get_vessel_country posSE.longitude posSE.latitude
      exampleLoadedBnds = some "SE" := by
    rw [hload]
    norm_num [posSE, get_vessel_country,
      boundaryMatches, areaContains, polyContains, rayOdd, onBoundary,
      ringEdges, sqRing, seRing, List.rotateLeft, List.countP, List.countP.go,
      rayCrosses, onSegment]
  rw [List.filterMap_cons, List.filterMap_cons, List.filterMap_nil, h1, h2]
  decide

/-- C2: deletion never touches records outside the analysis window.  Every
record older than `now - 24h` survives `delete_vessels` unchanged, and any
record that was removed had `timestamp ≥ now - 24h` and belonged to a
vessel of the handed-in identifier set. -/
theorem delete_preserves_old_records (store : List PositionRecord)
    (mmsiList : List Nat) (now : Int) :
    (∀ r ∈ store, r.timestamp < windowStart now 24 →
      r ∈ (delete_vessels store mmsiList (windowStart now 24)).1)
    ∧ (∀ r ∈ store, r ∉ (delete_vessels store mmsiList (windowStart now 24)).1 →
      windowStart now 24 ≤ r.timestamp ∧ r.mmsi ∈ mmsiList) := by
  unfold delete_vessels
  split
  case isTrue h => exact ⟨fun r hr _ => hr, fun r hr hnot => absurd hr hnot⟩
  case isFalse h =>
    constructor
    · exact fun r hr ht => foldl_delete_mem (chunkList 100 mmsiList) store r hr ht
    · intro r hr hnot
      obtain ⟨ht, b, hb, hm⟩ :=
        foldl_delete_removed (chunkList 100 mmsiList) store r hr hnot
      refine ⟨ht, ?_⟩
      rw [← chunkList_flatten 100 mmsiList (by omega)]
      exact List.mem_flatten.mpr ⟨b, hb, hm⟩

/-- C2 witness: a record whose timestamp predates the window start is
still present after deleting its own vessel. -/
theorem delete_preserves_old_records_witness :
    oldRec ∈ (delete_vessels [oldRec] [77] (windowStart 100000 24)).1 :=
  (delete_preserves_old_records [oldRec] [77] 100000).1 oldRec
    (List.mem_singleton.mpr rfl) (by decide)

/-- C6: batched deletion.  For a nonempty duplicate-free identifier list,
`delete_vessels` issues `ceil(n / 100)` delete calls, every call carries at
most 100 identifiers, and the concatenation of all calls is exactly the
original list, so each identifier occurs in exactly one call. -/
theorem delete_batching (store : List PositionRecord) (threshold : Int)
    (l : List Nat) (hne : l ≠ []) (hnd : l.Nodup) :
    ((delete_vessels store l threshold).2).length = (l.length + 99) / 100
    ∧ (∀ b ∈ (delete_vessels store l threshold).2, b.length ≤ 100)
    ∧ ((delete_vessels store l threshold).2).flatten = l
    ∧ (∀ m ∈ l, ((delete_vessels store l threshold).2).flatten.count m = 1) := by
  have hemp : l.isEmpty = false := by
    cases l
    · exact absurd rfl hne
    · rfl
  have h2 : (delete_vessels store l threshold).2 = chunkList 100 l := by
    unfold delete_vessels
    rw [if_neg (by simp [hemp])]
  rw [h2]
  have hfl := chunkList_flatten 100 l (by omega)
  refine ⟨?_, ?_, hfl, ?_⟩
  · rw [chunkList_length 100 l (by omega)]
  · exact fun b hb => chunkList_mem_length 100 l b hb
  · intro m hm
    rw [hfl]
    exact List.count_eq_one_of_mem hnd hm

/-- C6 witness: 150 identifiers are deleted in two calls whose
concatenation is the original list. -/
theorem delete_batching_witness :
    ((delete_vessels [] (List.range 150) 0).2).length = (150 + 99) / 100
    ∧ ((delete_vessels [] (List.range 150) 0).2).flatten = List.range 150 := by
  have h := delete_batching [] 0 (List.range 150) (by decide) (List.nodup_range 150)
  exact ⟨by simpa using h.1, h.2.2.1⟩

/-- C3 (amended): a point strictly inside an Area boundary's polygon gets
that boundary's label provided no earlier boundary in store order matches
the point; and a point outside every Area boundary and strictly farther
than the proximity threshold from every Line boundary classifies to
`None`.  (`areaContains` is exactly the strict-interior containment the
code's shapely `contains` performs.) -/
theorem classify_area_and_international (pre post : List Boundary)
    (b : Boundary) (rings : List (List Pt)) (p : Pt)
    (bnds : List Boundary) (q : Pt)
    (hb : b.geom = .area rings)
    (hin : areaContains p rings = true)
    (hpre : ∀ c ∈ pre, boundaryMatches p c = false)
    (hareas : ∀ c ∈ bnds, ∀ rgs, c.geom = .area rgs →
      areaContains q rgs = false)
    (hlines : ∀ c ∈ bnds, ∀ sgs, c.geom = .line sgs →
      ∀ s ∈ sgs, proximityThresholdSq < segDistSq q s.1 s.2) :
    get_vessel_country p.1 p.2 (pre ++ b :: post) = some b.country
    ∧ get_vessel_country q.1 q.2 bnds = none := by
  constructor
  · rw [gvc_append_of_no_match pre hpre]
    exact gvc_cons_of_match (by simp [boundaryMatches, hb, hin])
  · induction bnds with
    | nil => rfl
    | cons c rest ih =>
      have hc : boundaryMatches q c = false := by
        unfold boundaryMatches
        split
        case h_1 rgs heq =>
          exact hareas c (List.mem_cons_self c rest) rgs heq
        case h_2 sgs heq =>
          exact lineWithin_eq_false fun s hs =>
            le_of_lt (hlines c (List.mem_cons_self c rest) sgs heq s hs)
      rw [gvc_cons_of_no_match hc]
      exact ih (fun d hd => hareas d (List.mem_cons_of_mem c hd))
        (fun d hd => hlines d (List.mem_cons_of_mem c hd))

/-- C3 counterexample: the claim as stated is false.  The point
`(0, 1/10)` is strictly inside the `FI` area boundary present in the
store, yet `classify` returns `"SE"`, the label of the Line boundary that
precedes it in store order and lies within the proximity threshold. -/
theorem classify_area_counterexample :
    areaFI ∈ mixedBnds
    ∧ areaFI.geom = .area [sqRing]
    ∧ areaContains (0, 1/10) [sqRing] = true
    ∧ get_vessel_country 0 (1/10) mixedBnds = some "SE"
    ∧ some "SE" ≠ some areaFI.country := by
  refine ⟨by simp [mixedBnds], rfl, ?_, ?_, by simp [areaFI]⟩
  · norm_num [areaContains, polyContains, rayOdd, onBoundary, ringEdges,
      sqRing, List.rotateLeft, List.countP, List.countP.go, rayCrosses,
      onSegment]
  · norm_num [mixedBnds, lineSE, areaFI, get_vessel_country, boundaryMatches,
      lineWithin, segDistSq, proximityThresholdSq]

/-- C3 witness: the amended theorem applied concretely — the origin is
strictly inside the `FI` area (sole boundary), and a far-away point
classifies to `None` against both example boundaries. -/
theorem classify_area_and_international_witness :
    get_vessel_country 0 0 [areaFI] = some "FI"
    ∧ get_vessel_country 50 50 [areaFI, lineSE] = none := by
  have h := classify_area_and_international [] [] areaFI [sqRing] (0, 0)
    [areaFI, lineSE] (50, 50) rfl ?_ ?_ ?_ ?_
  · exact ⟨h.1, h.2⟩
  · norm_num [areaContains, polyContains, rayOdd, onBoundary, ringEdges,
      sqRing, List.rotateLeft, List.countP, List.countP.go, rayCrosses,
      onSegment]
  · intro c hc
    exact absurd hc (List.not_mem_nil c)
  · intro c hc rgs heq
    rcases List.mem_cons.mp hc with rfl | hc
    · have : rgs = [sqRing] := by
        have := heq.symm.trans (show areaFI.geom = .area [sqRing] from rfl)
        exact BGeom.area.injEq .. ▸ this
      subst this
      norm_num [areaContains, polyContains, rayOdd, onBoundary, ringEdges,
        sqRing, List.rotateLeft, List.countP, List.countP.go, rayCrosses,
        onSegment]
    · rcases List.mem_singleton.mp hc with rfl
      exact absurd heq (by simp [lineSE])
  · intro c hc sgs heq s hs
    rcases List.mem_cons.mp hc with rfl | hc
    · exact absurd heq (by simp [areaFI])
    · rcases List.mem_singleton.mp hc with rfl
      have : sgs = [((0, 0), (1, 0))] := by
        have := heq.symm.trans (show lineSE.geom = .line [((0, 0), (1, 0))] from rfl)
        exact BGeom.line.injEq .. ▸ this
      subst this
      rcases List.mem_singleton.mp hs with rfl
      norm_num [segDistSq, proximityThresholdSq]

/-- C4 (amended): Area matching excludes the boundary.  A point lying on
the boundary of an Area feature's polygon (hence not in its interior) does
not match that Area boundary — shapely containment is interior-only — so
the classifier passes over it and continues with the remaining
boundaries. -/
theorem area_match_excludes_boundary (p : Pt) (b : Boundary)
    (rings : List (List Pt)) (rest : List Boundary)
    (hb : b.geom = .area rings)
    (hbd : ∀ ring ∈ rings, onBoundary p ring = true) :
    get_vessel_country p.1 p.2 (b :: rest) = get_vessel_country p.1 p.2 rest :=
  gvc_cons_of_no_match
    (by simp [boundaryMatches, hb, areaContains_eq_false_of_onBoundary hbd])

/-- C4 counterexample: the claim as stated is false.  The point `(1, 0)`
lies on the boundary of the `FI` area polygon, that Area boundary is the
only (hence first) boundary in the store, yet `classify` does not return
its label — it returns `None`. -/
theorem area_match_boundary_counterexample :
    onBoundary (1, 0) sqRing = true
    ∧ polyContains (1, 0) sqRing = false
    ∧ get_vessel_country 1 0 [areaFI] = none
    ∧ get_vessel_country 1 0 [areaFI] ≠ some areaFI.country := by
  have h1 : onBoundary (1, 0) sqRing = true := by
    norm_num [onBoundary, ringEdges, sqRing, List.rotateLeft, onSegment]
  have h3 : get_vessel_country 1 0 [areaFI] = none := by
    norm_num [areaFI, get_vessel_country, boundaryMatches, areaContains,
      polyContains, h1]
  exact ⟨h1, by simp [polyContains, h1], h3, by simp [h3]⟩

/-- C4 witness: the amended theorem applied concretely at the boundary
point `(1, 0)` of the `FI` square. -/
theorem area_match_excludes_boundary_witness :
    get_vessel_country 1 0 (areaFI :: [lineSE]) =
      get_vessel_country 1 0 [lineSE] := by
  refine area_match_excludes_boundary (1, 0) areaFI [sqRing] [lineSE] rfl ?_
  intro ring hr
  rcases List.mem_singleton.mp hr with rfl
  norm_num [onBoundary, ringEdges, sqRing, List.rotateLeft, onSegment]

/-- C5: Line matching.  For a point that no Area boundary of the store
contains, the classifier returns the label of the first Line boundary in
store order whose distance is strictly below the 0.2-degree proximity
threshold; and for every Line boundary at distance at least the threshold
(in particular exactly the threshold), the match fails — the exclusive
choice, applied uniformly. -/
theorem classify_line_matching (pre post : List Boundary) (b : Boundary)
    (segs : List (Pt × Pt)) (p : Pt) (q : Pt) (qsegs : List (Pt × Pt))
    (hb : b.geom = .line segs)
    (hwithin : lineWithin p segs = true)
    (hareas : ∀ c ∈ pre ++ b :: post, ∀ rgs, c.geom = .area rgs →
      areaContains p rgs = false)
    (hpre : ∀ c ∈ pre, ∀ sgs, c.geom = .line sgs → lineWithin p sgs = false)
    (hq : ∀ s ∈ qsegs, proximityThresholdSq ≤ segDistSq q s.1 s.2) :
    get_vessel_country p.1 p.2 (pre ++ b :: post) = some b.country
    ∧ lineWithin q qsegs = false := by
  refine ⟨?_, lineWithin_eq_false hq⟩
  have hprematch : ∀ c ∈ pre, boundaryMatches p c = false := by
    intro c hc
    unfold boundaryMatches
    split
    case h_1 rgs heq =>
      exact hareas c (List.mem_append_left _ hc) rgs heq
    case h_2 sgs heq =>
      exact hpre c hc sgs heq
  rw [gvc_append_of_no_match pre hprematch]
  exact gvc_cons_of_match (by simp [boundaryMatches, hb, hwithin])

/-- C5 witness: the point `(0, 1/10)` is within the threshold of the `SE`
line boundary and gets its label; the point `(0, 1/5)` is at distance
exactly `0.2` from the segment and does not match. -/
theorem classify_line_matching_witness :
    get_vessel_country 0 (1/10) [lineSE] = some "SE"
    ∧ lineWithin (0, 1/5) [((0, 0), (1, 0))] = false := by
  have h := classify_line_matching [] [] lineSE [((0, 0), (1, 0))]
    (0, 1/10) (0, 1/5) [((0, 0), (1, 0))] rfl ?_ ?_ ?_ ?_
  · exact ⟨h.1, h.2⟩
  · norm_num [lineWithin, segDistSq, proximityThresholdSq]
  · intro c hc rgs heq
    rcases List.mem_singleton.mp (by simpa using hc) with rfl
    exact absurd heq (by simp [lineSE])
  · intro c hc
    exact absurd hc (List.not_mem_nil c)
  · intro s hs
    rcases List.mem_singleton.mp hs with rfl
    norm_num [segDistSq, proximityThresholdSq]

/-- C7: a failed position fetch aborts the run before any deletion.
Whatever the boundary-load outcome, a run whose fetch errors computes no
Keep/Delete verdict, issues no delete call, and leaves the store
untouched.  (In the code, `analyze_vessel_movements` returns a bare
`set()` on fetch error, whose tuple unpacking in `main` raises before
`delete_vessels` can be reached.) -/
theorem fetch_error_aborts_run (load : LoadOutcome)
    (store : List PositionRecord) (now : Int) :
    (mainRun load .err store now).verdictComputed = false
    ∧ (mainRun load .err store now).deleteCalls = []
    ∧ (mainRun load .err store now).finalStore = store := by
  cases load with
  | fileMissing => exact ⟨rfl, rfl, rfl⟩
  | parseFailure => exact ⟨rfl, rfl, rfl⟩
  | ok rawFeatures =>
    unfold mainRun
    dsimp only
    split
    · exact ⟨rfl, rfl, rfl⟩
    · exact ⟨rfl, rfl, rfl⟩

/-- C8: a missing or unparseable boundary file is fatal and
non-destructive.  In both failure modes the run performs no
classification, computes no verdict, issues no delete call and leaves the
store unchanged, for every fetch outcome. -/
theorem load_failure_is_nondestructive (fetch : FetchOutcome)
    (store : List PositionRecord) (now : Int) :
    mainRun .fileMissing fetch store now =
      ⟨false, 0, [], store⟩
    ∧ mainRun .parseFailure fetch store now =
      ⟨false, 0, [], store⟩ :=
  ⟨rfl, rfl⟩

/-- C9 counterexample: the claim as stated is false for the
territory-module loader.  A loaded feature with no candidate name property
gets the label `None`, not the string `"Unknown"`. -/
theorem label_resolution_counterexample :
    terrLoadFeatures [unnamedTerrFeature] = [(none, .polygon sqRing)]
    ∧ (terrLoadFeatures [unnamedTerrFeature]).map Prod.fst ≠ [some "Unknown"] := by
  refine ⟨rfl, ?_⟩
  intro h
  simp [terrLoadFeatures, unnamedTerrFeature, terrLabel, truthy, propGet] at h

/-- C9 (amended): in both loaders the jurisdiction label is the first
non-empty value among the prioritized candidate property keys; when no
candidate resolves, the cleanup loader falls back to the string
`"Unknown"`, while the territory-module loader leaves the label null. -/
theorem label_resolution (props : List (String × String)) :
    cleanupLabel props = (specFirstNonEmpty cleanupKeys props).getD "Unknown"
    ∧ terrLabel props = specFirstNonEmpty terrKeys props := by
  constructor
  · unfold cleanupLabel specFirstNonEmpty cleanupKeys
    simp only [List.filterMap_cons, List.filterMap_nil]
    cases truthy (propGet props "TERRITORY1") with
    | some s => rfl
    | none =>
      cases truthy (propGet props "Country") with
      | some s => rfl
      | none =>
        cases truthy (propGet props "NAME") with
        | some s => rfl
        | none => rfl
  · unfold terrLabel specFirstNonEmpty terrKeys
    simp only [List.filterMap_cons, List.filterMap_nil]
    cases truthy (propGet props "territory1") with
    | some s => rfl
    | none =>
      cases truthy (propGet props "sovereign1") with
      | some s => rfl
      | none =>
        cases truthy (propGet props "geoname") with
        | some s => rfl
        | none =>
          cases truthy (propGet props "name") with
          | some s => rfl
          | none => rfl

theorem firstContaining_eq_none {p : Pt} :
    ∀ {l : List (Option String × RawGeom)},
      (∀ f ∈ l, terrContains p f.2 = false) → firstContaining p l = none
  | [], _ => rfl
  | f :: rest, h => by
    rw [firstContaining, if_neg (by simp [h f (List.mem_cons_self f rest)])]
    exact firstContaining_eq_none fun d hd => h d (List.mem_cons_of_mem f hd)

/-- C10 (implicit): when shapely is unavailable, or when no boundary file
could be found/loaded (so the feature list stays empty),
`find_territorial_country` returns `None` for every coordinate without
raising — indistinguishable from the `None` returned for a point that
genuinely matches no loaded boundary (international waters). -/
theorem territory_lookup_silent_none
    (polys : List (Option String × RawGeom)) (lon lat : ℚ)
    (st : TerritoryState)
    (hnomatch : ∀ f ∈ st.territorial_polys, terrContains (lon, lat) f.2 = false) :
    find_territorial_country ⟨false, polys⟩ lon lat = none
    ∧ find_territorial_country ⟨true, []⟩ lon lat = none
    ∧ find_territorial_country st lon lat = none := by
  refine ⟨rfl, rfl, ?_⟩
  unfold find_territorial_country
  split
  · rfl
  · exact firstContaining_eq_none hnomatch

/-- C10 witness: with shapely present and one loaded polygon feature that
does not contain the query point, the lookup returns `None` — the same
value as in the two degraded modes. -/
theorem territory_lookup_silent_none_witness :
    find_territorial_country ⟨false, [(some "FI", .polygon sqRing)]⟩ 5 5 = none
    ∧ find_territorial_country ⟨true, []⟩ 5 5 = none
    ∧ find_territorial_country ⟨true, [(some "FI", .polygon sqRing)]⟩ 5 5 = none := by
  refine territory_lookup_silent_none [(some "FI", .polygon sqRing)] 5 5
    ⟨true, [(some "FI", .polygon sqRing)]⟩ ?_
  intro f hf
  rcases List.mem_singleton.mp hf with rfl
  norm_num [terrContains, polyContains, rayOdd, onBoundary, ringEdges,
    sqRing, List.rotateLeft, List.countP, List.countP.go, rayCrosses,
    onSegment]

end AisMap2
